import Mathlib

/-!
Verification of the derivative dynamic time warping (DDTW) distance module
`src/aeon/distances/_ddtw.py`.

The source file contains the derivative transform (`average_of_slope`,
`average_of_slope_transform`) and the two factories of `_DdtwDistance` that
close over a bounding matrix and compose the derivative transform with the DTW
cost matrix.  The collaborators imported by the source file
(`create_bounding_matrix`, `_dtw_cost_matrix`, `compute_min_return_path`, and
the validating distance facade of `NumbaDistance`) are not part of the given
source; their definitions below are modelled from the spec and say so in their
doc comments.

Numeric values are embedded as rationals (the source uses floating point;
the spec describes the values as finite real numbers).  Floating-point
infinity, used by the spec as the unreachable sentinel, is modelled as the top
element of `WithTop ℚ`.
-/

/-- A time series: a list of dimension rows, each row a list of rational
timepoints, i.e. an array of shape `(d, m)`. -/
abbrev Series : Type := List (List ℚ)

/-- Number of dimension rows, `x.shape[0]`. -/
def ndims (x : Series) : ℕ := x.length

/-- Number of timepoints, `x.shape[1]`, read from the first row. -/
def timepoints (x : Series) : ℕ := (x.headD []).length

/-- The series is a rectangular 2-D array: every row has the common length. -/
def isRect (x : Series) : Prop := ∀ r ∈ x, r.length = timepoints x

instance (x : Series) : Decidable (isRect x) := by
  unfold isRect; infer_instance

/-- Pointwise combination of three lists, used to express the vectorised numpy
arithmetic over the three slices of a row. -/
def zipWith3 (f : ℚ → ℚ → ℚ → ℚ) : List ℚ → List ℚ → List ℚ → List ℚ
  | a :: as, b :: bs, c :: cs => f a b c :: zipWith3 f as bs cs
  | _, _, _ => []

/-- The function `average_of_slope` (src/aeon/distances/_ddtw.py lines 47-79)
acting on one dimension row: the numpy expression
`q2 = 0.25 * q[2:] + 0.5 * q[1:-1] - 0.75 * q[:-2]`, whose element `j` is
`0.25 * q[j+2] + 0.5 * q[j+1] - 0.75 * q[j]`.  On a 2-D array the source
transposes, applies the same vectorised expression (which then acts
independently on each dimension row by broadcasting), and transposes back, so
the 2-D action is the row-wise map of this function. -/
def average_of_slope (q : List ℚ) : List ℚ :=
  zipWith3 (fun q0 q1 q2 => 0.25 * q2 + 0.5 * q1 - 0.75 * q0) q (q.drop 1) (q.drop 2)

/-- The function `average_of_slope_transform` (src/aeon/distances/_ddtw.py
lines 27-44): apply `average_of_slope` to every dimension row of the series
and collect the results.  This is also the 2-D action of `average_of_slope`
itself, which the factories install as the default derivative. -/
def average_of_slope_transform (X : Series) : Series := X.map average_of_slope

/-- A bounding matrix: the admissibility mask together with the shape it was
built for (`create_bounding_matrix(len1, len2, window)` returns a
`len1 x len2` boolean array). -/
structure BoundingMatrix where
  n_rows : ℕ
  n_cols : ℕ
  mask : ℕ → ℕ → Bool

/-- Modelled from the spec: `create_bounding_matrix`
(aeon.distances._bounding_matrix) is imported by src/aeon/distances/_ddtw.py
but its source is not part of the excerpt.  Spec section 4.2: given lengths
`m1`, `m2` and an optional window fraction `w`, return an `m1 x m2` mask; with
the window absent every cell is admissible, otherwise cell `(i, j)` is
admissible iff its normalised distance from the diagonal is at most
`w * max m1 m2` (a Sakoe-Chiba band). -/
def create_bounding_matrix (m1 m2 : ℕ) (window : Option ℚ) : BoundingMatrix :=
  { n_rows := m1
    n_cols := m2
    mask := fun i j =>
      match window with
      | none => true
      | some w => decide (|(i : ℚ) * m2 / m1 - j| ≤ w * max (m1 : ℚ) (m2 : ℚ)) }

/-- Column `i` of a series: the d-dimensional vector `x[:, i]`. -/
def seriesCol (x : Series) (i : ℕ) : List ℚ := x.map (fun r => r.getD i 0)

/-- Modelled from the spec (section 4.3): the pointwise distance between two
d-dimensional vectors is the sum of squared differences (squared Euclidean). -/
def sq_euclidean (u v : List ℚ) : ℚ := (List.zipWith (fun a b => (a - b) ^ 2) u v).sum

/-- Modelled from the spec: the cumulative-cost recurrence of
`_dtw_cost_matrix` (aeon.distances._dtw), imported by
src/aeon/distances/_ddtw.py but not part of the excerpt.  Spec section 4.3:
over an `(n1+1) x (n2+1)` grid, cell `(0, 0)` is `0`, the rest of row `0` and
column `0` are unreachable (infinity, here `⊤`), and an interior cell `(i+1,
j+1)` is the pointwise cost of series cells `(i, j)` plus the minimum of its
three predecessors when the bounding mask permits `(i, j)`, and infinity
otherwise. -/
def dtw_cost (x y : Series) (bm : BoundingMatrix) : ℕ → ℕ → WithTop ℚ
  | 0, 0 => 0
  | 0, _ + 1 => ⊤
  | _ + 1, 0 => ⊤
  | i + 1, j + 1 =>
    if bm.mask i j then
      (sq_euclidean (seriesCol x i) (seriesCol y j) : WithTop ℚ) +
        min (dtw_cost x y bm i (j + 1))
          (min (dtw_cost x y bm (i + 1) j) (dtw_cost x y bm i j))
    else ⊤
termination_by i j => (i, j)

/-- Modelled from the spec: the matrix `_dtw_cost_matrix` returns, i.e. the
cumulative costs at the `n1 x n2` series cells with the infinity border
stripped, so that entry `(i, j)` is `dtw_cost (i+1) (j+1)` and the numpy entry
`[-1, -1]` is the distance. -/
def dtw_cost_matrix (x y : Series) (bm : BoundingMatrix) : List (List (WithTop ℚ)) :=
  (List.range (timepoints x)).map fun i =>
    (List.range (timepoints y)).map fun j => dtw_cost x y bm (i + 1) (j + 1)

/-- Numpy `cost_matrix[-1, -1]`: the entry in the last row and last column. -/
def last_cell (cm : List (List (WithTop ℚ))) : WithTop ℚ :=
  let row := cm.getD (cm.length - 1) []
  row.getD (row.length - 1) ⊤

/-- Entry `(i, j)` of a cost matrix, infinity when out of bounds. -/
def cm_get (cm : List (List (WithTop ℚ))) (i j : ℕ) : WithTop ℚ :=
  (cm.getD i []).getD j ⊤

/-- Modelled from the spec (section 4.4): one backtracking move.  On the
border the only in-bounds predecessor is followed; otherwise the cheapest of
the diagonal, up and left predecessors is taken, ties broken in that fixed
order. -/
def backtrack_step (cm : List (List (WithTop ℚ))) (i j : ℕ) : ℕ × ℕ :=
  if i = 0 then (0, j - 1)
  else if j = 0 then (i - 1, 0)
  else if cm_get cm (i - 1) (j - 1) ≤ cm_get cm (i - 1) j ∧
      cm_get cm (i - 1) (j - 1) ≤ cm_get cm i (j - 1) then (i - 1, j - 1)
  else if cm_get cm (i - 1) j ≤ cm_get cm i (j - 1) then (i - 1, j)
  else (i, j - 1)

/-- Modelled from the spec: backtrack from `(i, j)` to `(0, 0)`, collecting
the visited cells in reverse path order; `fuel ≥ i + j` bounds the number of
moves because every move decreases `i + j`. -/
def backtrack (cm : List (List (WithTop ℚ))) : ℕ → ℕ → ℕ → List (ℕ × ℕ)
  | 0, i, j => [(i, j)]
  | fuel + 1, i, j =>
    if i = 0 ∧ j = 0 then [(i, j)]
    else (i, j) :: backtrack cm fuel (backtrack_step cm i j).1 (backtrack_step cm i j).2

/-- Modelled from the spec: `compute_min_return_path`
(aeon.distances._alignment_paths) is imported by src/aeon/distances/_ddtw.py
but its source is not part of the excerpt.  Spec sections 3 and 4.4: walk back
from the last cell `(n1-1, n2-1)` of the cost matrix to `(0, 0)`, choosing the
cheapest predecessor with a fixed tie-break, then reverse into start-to-end
order. -/
def compute_min_return_path (cm : List (List (WithTop ℚ))) : List (ℕ × ℕ) :=
  let n1 := cm.length
  let n2 := (cm.headD []).length
  (backtrack cm ((n1 - 1) + (n2 - 1)) (n1 - 1) (n2 - 1)).reverse

/-- The bounding matrix both factories build (src/aeon/distances/_ddtw.py
lines 133 and 204): `create_bounding_matrix(x.shape[1], y.shape[1], window)`.
Note that the original series lengths are passed, not the derivative
lengths. -/
def factory_bounding_matrix (x y : Series) (window : Option ℚ) : BoundingMatrix :=
  create_bounding_matrix (timepoints x) (timepoints y) window

/-- The factory `_DdtwDistance._distance_factory`
(src/aeon/distances/_ddtw.py lines 163-216) together with the
`numba_ddtw_distance` closure it returns: the bounding matrix is built once
from the factory-time shapes, and the returned callable derives both
arguments, computes the cost matrix, and returns its last cell. -/
def ddtw_distance_factory (x y : Series) (window : Option ℚ)
    (compute_derivative : Series → Series) : Series → Series → WithTop ℚ :=
  let bm := factory_bounding_matrix x y window
  fun a b => last_cell (dtw_cost_matrix (compute_derivative a) (compute_derivative b) bm)

/-- The closure `numba_ddtw_distance_alignment_path` returned by
`_DdtwDistance._distance_alignment_path_factory` with
`return_cost_matrix=False` (src/aeon/distances/_ddtw.py lines 148-159). -/
def ddtw_alignment_path_factory (x y : Series) (window : Option ℚ)
    (compute_derivative : Series → Series) :
    Series → Series → List (ℕ × ℕ) × WithTop ℚ :=
  let bm := factory_bounding_matrix x y window
  fun a b =>
    let cm := dtw_cost_matrix (compute_derivative a) (compute_derivative b) bm
    (compute_min_return_path cm, last_cell cm)

/-- The closure `numba_ddtw_distance_alignment_path` returned by
`_DdtwDistance._distance_alignment_path_factory` with
`return_cost_matrix=True` (src/aeon/distances/_ddtw.py lines 135-146). -/
def ddtw_alignment_path_cm_factory (x y : Series) (window : Option ℚ)
    (compute_derivative : Series → Series) :
    Series → Series → List (ℕ × ℕ) × WithTop ℚ × List (List (WithTop ℚ)) :=
  let bm := factory_bounding_matrix x y window
  fun a b =>
    let cm := dtw_cost_matrix (compute_derivative a) (compute_derivative b) bm
    (compute_min_return_path cm, last_cell cm, cm)

/-- The error taxonomy of the spec (section 7). -/
inductive DistanceError where
  | shapeError
  | valueError
deriving DecidableEq

/-- Window validity: absent, or a fraction in the closed interval from 0
to 1. -/
def window_ok : Option ℚ → Prop
  | none => True
  | some w => 0 ≤ w ∧ w ≤ 1

instance : (w : Option ℚ) → Decidable (window_ok w)
  | none => isTrue trivial
  | some _ => instDecidableAnd

/-- Modelled from the spec: the validating distance facade
(`NumbaDistance.distance`, aeon.distances.base) is imported by
src/aeon/distances/_ddtw.py but its source is not part of the excerpt.  Spec
sections 4.5 and 7: the inputs must be 2-D arrays with equal dimension counts
(otherwise ShapeError); the window, if given, must lie in the unit interval
and both series must be long enough for the derivative transform (otherwise
ValueError); all checks happen eagerly, before any matrix is built, and then
the factory-produced callable runs on the two series. -/
def ddtw_distance (x y : Series) (window : Option ℚ) : Except DistanceError (WithTop ℚ) :=
  if ¬(isRect x ∧ isRect y ∧ ndims x = ndims y) then .error .shapeError
  else if ¬window_ok window then .error .valueError
  else if timepoints x < 3 ∨ timepoints y < 3 then .error .valueError
  else .ok (ddtw_distance_factory x y window average_of_slope_transform x y)

/-- One forward step of an alignment path: each coordinate grows by 0 or 1 and
at least one of them grows. -/
def path_step (a b : ℕ × ℕ) : Prop :=
  (b.1 = a.1 ∨ b.1 = a.1 + 1) ∧ (b.2 = a.2 ∨ b.2 = a.2 + 1) ∧ b ≠ a

/-! Lemmas about the derivative transform. -/

theorem average_of_slope_nil : average_of_slope [] = [] := rfl

theorem average_of_slope_one (a : ℚ) : average_of_slope [a] = [] := rfl

theorem average_of_slope_two (a b : ℚ) : average_of_slope [a, b] = [] := rfl

theorem average_of_slope_cons (a b c : ℚ) (t : List ℚ) :
    average_of_slope (a :: b :: c :: t) =
      (0.25 * c + 0.5 * b - 0.75 * a) :: average_of_slope (b :: c :: t) := rfl

theorem average_of_slope_length : ∀ q : List ℚ, (average_of_slope q).length = q.length - 2
  | [] => rfl
  | [_] => rfl
  | [_, _] => rfl
  | a :: b :: c :: t => by
    rw [average_of_slope_cons]
    have ih := average_of_slope_length (b :: c :: t)
    simp only [List.length_cons] at ih ⊢
    omega

theorem average_of_slope_getD :
    ∀ (q : List ℚ) (k : ℕ), k + 2 < q.length →
      (average_of_slope q).getD k 0 =
        0.25 * q.getD (k + 2) 0 + 0.5 * q.getD (k + 1) 0 - 0.75 * q.getD k 0
  | a :: b :: c :: t, 0, _ => by
    rw [average_of_slope_cons]
    simp [List.getD_cons_zero, List.getD_cons_succ]
  | a :: b :: c :: t, k + 1, h => by
    rw [average_of_slope_cons]
    have ih := average_of_slope_getD (b :: c :: t) k (by simp at h ⊢; omega)
    simp only [List.getD_cons_succ]
    exact ih

theorem timepoints_average_of_slope_transform (x : Series) :
    timepoints (average_of_slope_transform x) = timepoints x - 2 := by
  cases x with
  | nil => rfl
  | cons r t =>
    show (average_of_slope r).length = r.length - 2
    exact average_of_slope_length r

/-- C1: for every series of shape `(d, m)` with `m ≥ 3`, the default
derivative transform returns a series of shape `(d, m-2)` in which,
independently for each dimension row `q`, the output at original interior
index `i = k + 1` (output index `k`) equals
`0.25 * q[i+1] + 0.5 * q[i] - 0.75 * q[i-1]`. -/
theorem average_of_slope_transform_correct (x : Series) (m : ℕ) (hm : 3 ≤ m)
    (hx : ∀ r ∈ x, r.length = m) :
    (average_of_slope_transform x).length = x.length ∧
    (∀ r ∈ average_of_slope_transform x, r.length = m - 2) ∧
    (∀ q ∈ x, ∀ k, k < m - 2 →
      (average_of_slope q).getD k 0 =
        0.25 * q.getD (k + 2) 0 + 0.5 * q.getD (k + 1) 0 - 0.75 * q.getD k 0) := by
  refine ⟨by simp [average_of_slope_transform], ?_, ?_⟩
  · intro r hr
    obtain ⟨q, hq, rfl⟩ := List.mem_map.mp hr
    rw [average_of_slope_length, hx q hq]
  · intro q hq k hk
    exact average_of_slope_getD q k (by rw [hx q hq]; omega)

/-- Witness for C1 at the concrete series `[[1, 2, 3, 4, 5]]` of shape
`(1, 5)`. -/
theorem average_of_slope_transform_correct_witness :
    (3 ≤ 5 ∧ ∀ r ∈ [[(1 : ℚ), 2, 3, 4, 5]], r.length = 5) ∧
    ((average_of_slope_transform [[(1 : ℚ), 2, 3, 4, 5]]).length =
        ([[(1 : ℚ), 2, 3, 4, 5]] : Series).length ∧
      (∀ r ∈ average_of_slope_transform [[(1 : ℚ), 2, 3, 4, 5]], r.length = 5 - 2) ∧
      (∀ q ∈ [[(1 : ℚ), 2, 3, 4, 5]], ∀ k, k < 5 - 2 →
        (average_of_slope q).getD k 0 =
          0.25 * q.getD (k + 2) 0 + 0.5 * q.getD (k + 1) 0 - 0.75 * q.getD k 0)) :=
  ⟨⟨by omega, by decide⟩,
    average_of_slope_transform_correct [[(1 : ℚ), 2, 3, 4, 5]] 5 (by omega) (by decide)⟩

/-- C9: the derivative transform is invariant under adding a constant offset
and commutes with scalar multiplication, per dimension row:
`average_of_slope (a * q + c) = a * average_of_slope q`. -/
theorem average_of_slope_affine_equivariant (a c : ℚ) (q : List ℚ) (hq : 3 ≤ q.length) :
    average_of_slope (q.map fun v => a * v + c) =
      (average_of_slope q).map fun v => a * v := by
  clear hq
  induction q with
  | nil => rfl
  | cons p t ih =>
    match t, ih with
    | [], _ => rfl
    | [_], _ => rfl
    | b :: d :: t, ih => ?_
    simp only [List.map_cons] at ih ⊢
    rw [average_of_slope_cons, average_of_slope_cons, List.map_cons, ih]
    congr 1
    ring

/-- Witness for C9 at `a = 2`, `c = 5`, `q = [1, 2, 3]`. -/
theorem average_of_slope_affine_equivariant_witness :
    3 ≤ ([(1 : ℚ), 2, 3] : List ℚ).length ∧
    average_of_slope (([(1 : ℚ), 2, 3]).map fun v => 2 * v + 5) =
      (average_of_slope [(1 : ℚ), 2, 3]).map fun v => 2 * v :=
  ⟨by decide, average_of_slope_affine_equivariant 2 5 [1, 2, 3] (by decide)⟩

/-! Lemmas about the DTW cost recurrence. -/

theorem dtw_cost_zero_zero (x y : Series) (bm : BoundingMatrix) :
    dtw_cost x y bm 0 0 = 0 := by
  simp [dtw_cost]

theorem dtw_cost_zero_succ (x y : Series) (bm : BoundingMatrix) (j : ℕ) :
    dtw_cost x y bm 0 (j + 1) = ⊤ := by
  simp [dtw_cost]

theorem dtw_cost_succ_zero (x y : Series) (bm : BoundingMatrix) (i : ℕ) :
    dtw_cost x y bm (i + 1) 0 = ⊤ := by
  simp [dtw_cost]

theorem dtw_cost_succ_succ (x y : Series) (bm : BoundingMatrix) (i j : ℕ) :
    dtw_cost x y bm (i + 1) (j + 1) =
      if bm.mask i j then
        (sq_euclidean (seriesCol x i) (seriesCol y j) : WithTop ℚ) +
          min (dtw_cost x y bm i (j + 1))
            (min (dtw_cost x y bm (i + 1) j) (dtw_cost x y bm i j))
      else ⊤ := by
  rw [dtw_cost]

theorem sq_euclidean_comm : ∀ u v : List ℚ, sq_euclidean u v = sq_euclidean v u
  | [], [] => rfl
  | [], _ :: _ => rfl
  | _ :: _, [] => rfl
  | a :: u, b :: v => by
    have ih := sq_euclidean_comm u v
    unfold sq_euclidean at ih ⊢
    simp only [List.zipWith_cons_cons, List.sum_cons]
    rw [ih]
    ring_nf

theorem sq_euclidean_self : ∀ u : List ℚ, sq_euclidean u u = 0
  | [] => rfl
  | a :: u => by
    have ih := sq_euclidean_self u
    unfold sq_euclidean at ih ⊢
    simp only [List.zipWith_cons_cons, List.sum_cons, ih]
    ring

theorem sq_euclidean_nonneg : ∀ u v : List ℚ, 0 ≤ sq_euclidean u v
  | [], _ => le_refl 0
  | _ :: _, [] => le_refl 0
  | a :: u, b :: v => by
    have ih := sq_euclidean_nonneg u v
    unfold sq_euclidean at ih ⊢
    simp only [List.zipWith_cons_cons, List.sum_cons]
    have hsq : (0 : ℚ) ≤ (a - b) ^ 2 := sq_nonneg _
    linarith

theorem dtw_cost_nonneg (x y : Series) (bm : BoundingMatrix) :
    ∀ i j : ℕ, 0 ≤ dtw_cost x y bm i j
  | 0, 0 => by rw [dtw_cost_zero_zero]
  | 0, j + 1 => by rw [dtw_cost_zero_succ]; exact le_top
  | i + 1, 0 => by rw [dtw_cost_succ_zero]; exact le_top
  | i + 1, j + 1 => by
    rw [dtw_cost_succ_succ]
    split
    · refine add_nonneg ?_ ?_
      · exact_mod_cast sq_euclidean_nonneg (seriesCol x i) (seriesCol y j)
      · exact le_min (dtw_cost_nonneg x y bm i (j + 1))
          (le_min (dtw_cost_nonneg x y bm (i + 1) j) (dtw_cost_nonneg x y bm i j))
    · exact le_top
termination_by i j => (i, j)

theorem dtw_cost_diag_self (z : Series) (bm : BoundingMatrix)
    (hmask : ∀ i j, bm.mask i j = true) : ∀ i : ℕ, dtw_cost z z bm i i = 0
  | 0 => dtw_cost_zero_zero z z bm
  | i + 1 => by
    rw [dtw_cost_succ_succ, hmask i i, if_pos rfl, sq_euclidean_self,
      dtw_cost_diag_self z bm hmask i]
    rw [min_eq_right (dtw_cost_nonneg z z bm (i + 1) i),
      min_eq_right (dtw_cost_nonneg z z bm i (i + 1))]
    simp

theorem dtw_cost_symm (x y : Series) (b1 b2 : BoundingMatrix)
    (hm : ∀ i j, b1.mask i j = b2.mask j i) :
    ∀ n i j : ℕ, i + j ≤ n → dtw_cost x y b1 i j = dtw_cost y x b2 j i := by
  intro n
  induction n with
  | zero =>
    intro i j h
    have hi : i = 0 := by omega
    have hj : j = 0 := by omega
    subst hi; subst hj
    rw [dtw_cost_zero_zero, dtw_cost_zero_zero]
  | succ n ih =>
    intro i j h
    rcases i with _ | i <;> rcases j with _ | j
    · rw [dtw_cost_zero_zero, dtw_cost_zero_zero]
    · rw [dtw_cost_zero_succ, dtw_cost_succ_zero]
    · rw [dtw_cost_succ_zero, dtw_cost_zero_succ]
    · rw [dtw_cost_succ_succ, dtw_cost_succ_succ, hm i j]
      by_cases hb : b2.mask j i = true
      · rw [if_pos hb, if_pos hb]
        rw [sq_euclidean_comm]
        rw [ih i (j + 1) (by omega), ih (i + 1) j (by omega), ih i j (by omega)]
        rw [min_left_comm]
      · rw [if_neg hb, if_neg hb]

/-! Shape lemmas for the cost matrix. -/

theorem headD_eq_getD {α : Type} (l : List α) (d : α) : l.headD d = l.getD 0 d := by
  cases l <;> rfl

theorem range_map_getD {α : Type} (n k : ℕ) (f : ℕ → α) (d : α) (h : k < n) :
    ((List.range n).map f).getD k d = f k := by
  simp [List.getD_eq_getElem?_getD, List.getElem?_range h]

theorem getD_nil {α : Type} (k : ℕ) (d : α) : ([] : List α).getD k d = d := by
  simp

theorem dtw_cost_matrix_length (x y : Series) (bm : BoundingMatrix) :
    (dtw_cost_matrix x y bm).length = timepoints x := by
  simp [dtw_cost_matrix]

theorem dtw_cost_matrix_row (x y : Series) (bm : BoundingMatrix) (i : ℕ)
    (h : i < timepoints x) :
    (dtw_cost_matrix x y bm).getD i [] =
      (List.range (timepoints y)).map fun j => dtw_cost x y bm (i + 1) (j + 1) := by
  unfold dtw_cost_matrix
  exact range_map_getD _ i _ [] h

theorem dtw_cost_matrix_head_length (x y : Series) (bm : BoundingMatrix)
    (h : 1 ≤ timepoints x) :
    ((dtw_cost_matrix x y bm).headD []).length = timepoints y := by
  rw [headD_eq_getD, dtw_cost_matrix_row x y bm 0 (by omega)]
  simp

theorem last_cell_eq (x y : Series) (bm : BoundingMatrix)
    (h1 : 1 ≤ timepoints x) (h2 : 1 ≤ timepoints y) :
    last_cell (dtw_cost_matrix x y bm) = dtw_cost x y bm (timepoints x) (timepoints y) := by
  unfold last_cell
  rw [dtw_cost_matrix_length, dtw_cost_matrix_row x y bm (timepoints x - 1) (by omega)]
  simp only [List.length_map, List.length_range]
  rw [range_map_getD _ (timepoints y - 1) _ ⊤ (by omega)]
  congr 1 <;> omega

theorem last_cell_degenerate (x y : Series) (bm : BoundingMatrix)
    (h : timepoints x = 0 ∨ timepoints y = 0) :
    last_cell (dtw_cost_matrix x y bm) = ⊤ := by
  rcases h with h | h
  · unfold last_cell
    unfold dtw_cost_matrix
    rw [h]
    simp
  · rcases Nat.eq_zero_or_pos (timepoints x) with hx | hx
    · unfold last_cell
      unfold dtw_cost_matrix
      rw [hx]
      simp
    · unfold last_cell
      rw [dtw_cost_matrix_length, dtw_cost_matrix_row x y bm (timepoints x - 1) (by omega)]
      rw [h]
      simp

theorem create_bounding_matrix_none_mask (m1 m2 : ℕ) (i j : ℕ) :
    (create_bounding_matrix m1 m2 none).mask i j = true := rfl

theorem ddtw_distance_factory_self_eq_zero (x : Series) (h : 3 ≤ timepoints x) :
    ddtw_distance_factory x x none average_of_slope_transform x x = 0 := by
  show last_cell (dtw_cost_matrix (average_of_slope_transform x)
    (average_of_slope_transform x) (factory_bounding_matrix x x none)) = 0
  have hn : 1 ≤ timepoints (average_of_slope_transform x) := by
    rw [timepoints_average_of_slope_transform]; omega
  rw [last_cell_eq _ _ _ hn hn]
  exact dtw_cost_diag_self _ _ (fun i j => create_bounding_matrix_none_mask _ _ i j) _

theorem ddtw_distance_factory_symm (x y : Series) :
    ddtw_distance_factory x y none average_of_slope_transform x y =
      ddtw_distance_factory y x none average_of_slope_transform y x := by
  show last_cell (dtw_cost_matrix (average_of_slope_transform x)
      (average_of_slope_transform y) (factory_bounding_matrix x y none)) =
    last_cell (dtw_cost_matrix (average_of_slope_transform y)
      (average_of_slope_transform x) (factory_bounding_matrix y x none))
  rcases Nat.eq_zero_or_pos (timepoints (average_of_slope_transform x)) with hx | hx
  · rw [last_cell_degenerate _ _ _ (Or.inl hx), last_cell_degenerate _ _ _ (Or.inr hx)]
  · rcases Nat.eq_zero_or_pos (timepoints (average_of_slope_transform y)) with hy | hy
    · rw [last_cell_degenerate _ _ _ (Or.inr hy), last_cell_degenerate _ _ _ (Or.inl hy)]
    · rw [last_cell_eq _ _ _ hx hy, last_cell_eq _ _ _ hy hx]
      exact dtw_cost_symm _ _ _ _ (fun i j => rfl) _ _ _ (le_refl _)

theorem window_ok_none : window_ok none := True.intro

/-- C5: for every valid series `x` (2-D, length at least 3), the DDTW
distance of `x` with itself is 0. -/
theorem ddtw_distance_self (x : Series) (hrect : isRect x) (hm : 3 ≤ timepoints x) :
    ddtw_distance x x none = Except.ok 0 := by
  unfold ddtw_distance
  rw [if_neg (not_not_intro ⟨hrect, hrect, rfl⟩),
    if_neg (not_not_intro window_ok_none),
    if_neg (by omega : ¬(timepoints x < 3 ∨ timepoints x < 3)),
    ddtw_distance_factory_self_eq_zero x hm]

/-- Witness for C5 at `x = [[1, 2, 3]]`. -/
theorem ddtw_distance_self_witness :
    (isRect [[(1 : ℚ), 2, 3]] ∧ 3 ≤ timepoints [[(1 : ℚ), 2, 3]]) ∧
    ddtw_distance [[(1 : ℚ), 2, 3]] [[(1 : ℚ), 2, 3]] none = Except.ok 0 :=
  ⟨⟨by decide, by decide⟩, ddtw_distance_self [[(1 : ℚ), 2, 3]] (by decide) (by decide)⟩

/-- C6: the DDTW distance with the default squared-Euclidean pointwise cost
and the default (absent) window is symmetric; this holds for all inputs, the
error cases included. -/
theorem ddtw_distance_symmetric (x y : Series) :
    ddtw_distance x y none = ddtw_distance y x none := by
  unfold ddtw_distance
  by_cases hc : isRect x ∧ isRect y ∧ ndims x = ndims y
  · have hc2 : isRect y ∧ isRect x ∧ ndims y = ndims x := ⟨hc.2.1, hc.1, hc.2.2.symm⟩
    rw [if_neg (not_not_intro hc), if_neg (not_not_intro hc2),
      if_neg (not_not_intro window_ok_none),
      if_neg (not_not_intro window_ok_none)]
    by_cases hl : timepoints x < 3 ∨ timepoints y < 3
    · rw [if_pos hl, if_pos (Or.symm hl)]
    · rw [if_neg hl, if_neg (fun h => hl (Or.symm h))]
      exact congrArg Except.ok (ddtw_distance_factory_symm x y)
  · have hc2 : ¬(isRect y ∧ isRect x ∧ ndims y = ndims x) := by
      intro h; exact hc ⟨h.2.1, h.1, h.2.2.symm⟩
    rw [if_pos hc, if_pos hc2]

/-- C3: for well-shaped inputs, if either original length is below 3 (so the
derivative series would be empty), the distance computation fails with a
ValueError before any dynamic-programming work. -/
theorem ddtw_distance_too_short (x y : Series) (w : Option ℚ)
    (hx : isRect x) (hy : isRect y) (hd : ndims x = ndims y) (hw : window_ok w)
    (h : timepoints x < 3 ∨ timepoints y < 3) :
    ddtw_distance x y w = Except.error DistanceError.valueError := by
  unfold ddtw_distance
  rw [if_neg (not_not_intro ⟨hx, hy, hd⟩), if_neg (not_not_intro hw), if_pos h]

/-- Witness for C3 at the concrete scenario of the claim: `x = [[1, 2]]` of
length 2 raises a ValueError. -/
theorem ddtw_distance_too_short_witness :
    (isRect [[(1 : ℚ), 2]] ∧ ndims [[(1 : ℚ), 2]] = ndims [[(1 : ℚ), 2]] ∧
      window_ok none ∧ timepoints [[(1 : ℚ), 2]] < 3) ∧
    ddtw_distance [[(1 : ℚ), 2]] [[(1 : ℚ), 2]] none =
      Except.error DistanceError.valueError :=
  ⟨⟨by decide, rfl, window_ok_none, by decide⟩,
    ddtw_distance_too_short [[(1 : ℚ), 2]] [[(1 : ℚ), 2]] none
      (by decide) (by decide) rfl window_ok_none (Or.inl (by decide))⟩

/-- C4: for every pair of input series with differing dimension counts, the
distance computation fails with a ShapeError, before any cost-matrix or
bounding-matrix work. -/
theorem ddtw_distance_dim_mismatch (x y : Series) (w : Option ℚ)
    (hd : ndims x ≠ ndims y) :
    ddtw_distance x y w = Except.error DistanceError.shapeError := by
  unfold ddtw_distance
  rw [if_pos (by tauto)]

/-- Witness for C4 at `x` of shape `(1, 5)` and `y` of shape `(2, 5)`. -/
theorem ddtw_distance_dim_mismatch_witness :
    ndims [[(1 : ℚ), 2, 3, 4, 5]] ≠ ndims [[(1 : ℚ), 2, 3, 4, 5], [5, 4, 3, 2, 1]] ∧
    ddtw_distance [[(1 : ℚ), 2, 3, 4, 5]] [[(1 : ℚ), 2, 3, 4, 5], [5, 4, 3, 2, 1]] none =
      Except.error DistanceError.shapeError :=
  ⟨by decide,
    ddtw_distance_dim_mismatch [[(1 : ℚ), 2, 3, 4, 5]]
      [[(1 : ℚ), 2, 3, 4, 5], [5, 4, 3, 2, 1]] none (by decide)⟩

/-- C7: for every factory-time pair, window and derivative choice, and every
pair of series later passed to the callables, the scalar of the distance-only
callable equals the scalar component of the distance-with-path callable, and
`return_cost_matrix=True` only appends the cost matrix, changing neither the
path nor the scalar. -/
theorem ddtw_path_scalar_agree (x y : Series) (w : Option ℚ)
    (cd : Series → Series) (a b : Series) :
    (ddtw_alignment_path_factory x y w cd a b).2 = ddtw_distance_factory x y w cd a b ∧
    (ddtw_alignment_path_cm_factory x y w cd a b).1 =
      (ddtw_alignment_path_factory x y w cd a b).1 ∧
    (ddtw_alignment_path_cm_factory x y w cd a b).2.1 =
      (ddtw_alignment_path_factory x y w cd a b).2 :=
  ⟨rfl, rfl, rfl⟩

/-- C10: the callables returned by the two factories depend on the
factory-time series only through their lengths: equal lengths and equal
window (and the same derivative function) give callables with identical
results on every later pair of series. -/
theorem ddtw_factories_depend_only_on_lengths (x1 y1 x2 y2 : Series)
    (w : Option ℚ) (cd : Series → Series) (a b : Series)
    (hx : timepoints x1 = timepoints x2) (hy : timepoints y1 = timepoints y2) :
    ddtw_distance_factory x1 y1 w cd a b = ddtw_distance_factory x2 y2 w cd a b ∧
    ddtw_alignment_path_factory x1 y1 w cd a b =
      ddtw_alignment_path_factory x2 y2 w cd a b ∧
    ddtw_alignment_path_cm_factory x1 y1 w cd a b =
      ddtw_alignment_path_cm_factory x2 y2 w cd a b := by
  unfold ddtw_distance_factory ddtw_alignment_path_factory ddtw_alignment_path_cm_factory
    factory_bounding_matrix
  rw [hx, hy]
  exact ⟨rfl, rfl, rfl⟩

/-- Witness for C10: two factory-time pairs with equal lengths but different
values produce callables that agree on a later pair. -/
theorem ddtw_factories_depend_only_on_lengths_witness :
    (timepoints [[(1 : ℚ), 2, 3]] = timepoints [[(7 : ℚ), 8, 9]] ∧
      timepoints [[(4 : ℚ), 5, 6]] = timepoints [[(0 : ℚ), 0, 0]]) ∧
    (ddtw_distance_factory [[(1 : ℚ), 2, 3]] [[(4 : ℚ), 5, 6]] none
        average_of_slope_transform [[(1 : ℚ), 2, 3]] [[(3 : ℚ), 2, 1]] =
      ddtw_distance_factory [[(7 : ℚ), 8, 9]] [[(0 : ℚ), 0, 0]] none
        average_of_slope_transform [[(1 : ℚ), 2, 3]] [[(3 : ℚ), 2, 1]] ∧
      ddtw_alignment_path_factory [[(1 : ℚ), 2, 3]] [[(4 : ℚ), 5, 6]] none
          average_of_slope_transform [[(1 : ℚ), 2, 3]] [[(3 : ℚ), 2, 1]] =
        ddtw_alignment_path_factory [[(7 : ℚ), 8, 9]] [[(0 : ℚ), 0, 0]] none
          average_of_slope_transform [[(1 : ℚ), 2, 3]] [[(3 : ℚ), 2, 1]] ∧
      ddtw_alignment_path_cm_factory [[(1 : ℚ), 2, 3]] [[(4 : ℚ), 5, 6]] none
          average_of_slope_transform [[(1 : ℚ), 2, 3]] [[(3 : ℚ), 2, 1]] =
        ddtw_alignment_path_cm_factory [[(7 : ℚ), 8, 9]] [[(0 : ℚ), 0, 0]] none
          average_of_slope_transform [[(1 : ℚ), 2, 3]] [[(3 : ℚ), 2, 1]]) :=
  ⟨⟨rfl, rfl⟩,
    ddtw_factories_depend_only_on_lengths [[(1 : ℚ), 2, 3]] [[(4 : ℚ), 5, 6]]
      [[(7 : ℚ), 8, 9]] [[(0 : ℚ), 0, 0]] none average_of_slope_transform
      [[(1 : ℚ), 2, 3]] [[(3 : ℚ), 2, 1]] rfl rfl⟩

/-- C2: the factories size the bounding matrix to the original series lengths
and not to the derivative lengths.  At `x = y = [[1, 2, 3, 4, 5]]` (shape
`(1, 5)`) and window `1/2`, the factory-time bounding matrix is `5 x 5`, while
the cost matrix is computed over derivative series of length `3`, so the mask
shape the claim and spec require would be `3 x 3`. -/
theorem factory_bounding_matrix_uses_original_lengths :
    (factory_bounding_matrix [[(1 : ℚ), 2, 3, 4, 5]] [[(1 : ℚ), 2, 3, 4, 5]]
        (some (1 / 2))).n_rows = 5 ∧
    (factory_bounding_matrix [[(1 : ℚ), 2, 3, 4, 5]] [[(1 : ℚ), 2, 3, 4, 5]]
        (some (1 / 2))).n_cols = 5 ∧
    timepoints (average_of_slope_transform [[(1 : ℚ), 2, 3, 4, 5]]) = 3 ∧
    (factory_bounding_matrix [[(1 : ℚ), 2, 3, 4, 5]] [[(1 : ℚ), 2, 3, 4, 5]]
        (some (1 / 2))).n_rows ≠
      timepoints (average_of_slope_transform [[(1 : ℚ), 2, 3, 4, 5]]) := by
  refine ⟨rfl, rfl, ?_, ?_⟩ <;> decide


/-! Lemmas about path recovery. -/

theorem backtrack_step_spec (cm : List (List (WithTop ℚ))) (i j : ℕ)
    (h0 : ¬(i = 0 ∧ j = 0)) :
    (backtrack_step cm i j).1 + (backtrack_step cm i j).2 < i + j ∧
    path_step (backtrack_step cm i j) (i, j) := by
  unfold backtrack_step
  by_cases hi : i = 0
  · subst hi
    have hj : j ≠ 0 := by tauto
    rw [if_pos rfl]
    simp [path_step, Prod.ext_iff] <;> omega
  · rw [if_neg hi]
    by_cases hj : j = 0
    · subst hj
      rw [if_pos rfl]
      simp [path_step, Prod.ext_iff] <;> omega
    · rw [if_neg hj]
      split_ifs <;> simp [path_step, Prod.ext_iff] <;> omega

theorem backtrack_spec (cm : List (List (WithTop ℚ))) :
    ∀ fuel i j : ℕ, i + j ≤ fuel →
      (backtrack cm fuel i j).head? = some (i, j) ∧
      (backtrack cm fuel i j).getLast? = some (0, 0) ∧
      (backtrack cm fuel i j).Chain' (fun a b => path_step b a) := by
  intro fuel
  induction fuel with
  | zero =>
    intro i j h
    have hi : i = 0 := by omega
    have hj : j = 0 := by omega
    subst hi; subst hj
    exact ⟨rfl, rfl, List.chain'_singleton _⟩
  | succ n ih =>
    intro i j h
    by_cases h0 : i = 0 ∧ j = 0
    · obtain ⟨hi, hj⟩ := h0
      subst hi; subst hj
      rw [backtrack, if_pos ⟨rfl, rfl⟩]
      exact ⟨rfl, rfl, List.chain'_singleton _⟩
    · rw [backtrack, if_neg h0]
      obtain ⟨hd, hstep⟩ := backtrack_step_spec cm i j h0
      obtain ⟨ihh, ihl, ihc⟩ :=
        ih (backtrack_step cm i j).1 (backtrack_step cm i j).2 (by omega)
      refine ⟨rfl, ?_, ?_⟩
      · cases hr : backtrack cm n (backtrack_step cm i j).1 (backtrack_step cm i j).2 with
        | nil => rw [hr] at ihh; cases ihh
        | cons r t =>
          rw [hr] at ihl
          rw [List.getLast?_cons_cons]
          exact ihl
      · cases hr : backtrack cm n (backtrack_step cm i j).1 (backtrack_step cm i j).2 with
        | nil => rw [hr] at ihh; cases ihh
        | cons r t =>
          rw [hr] at ihh ihc
          rw [List.chain'_cons]
          have hr2 : r = backtrack_step cm i j := by
            simp only [List.head?_cons, Option.some.injEq] at ihh
            rw [ihh]
          exact ⟨hr2 ▸ hstep, ihc⟩

/-- C8: for every pair of valid series and any window, the alignment path
returned by the distance-with-path callable starts at `(0, 0)`, ends at
`(n1 - 1, n2 - 1)` in derivative-length coordinates (`nk = mk - 2`), and every
consecutive step changes each coordinate by 0 or 1, at least one of them
changing. -/
theorem ddtw_alignment_path_endpoints (x y : Series) (w : Option ℚ)
    (hx : isRect x) (hy : isRect y) (h3x : 3 ≤ timepoints x) (h3y : 3 ≤ timepoints y) :
    (ddtw_alignment_path_factory x y w average_of_slope_transform x y).1.head? =
      some (0, 0) ∧
    (ddtw_alignment_path_factory x y w average_of_slope_transform x y).1.getLast? =
      some (timepoints x - 3, timepoints y - 3) ∧
    (ddtw_alignment_path_factory x y w average_of_slope_transform x y).1.Chain'
      path_step := by
  clear hx hy
  have e1 : (dtw_cost_matrix (average_of_slope_transform x) (average_of_slope_transform y)
      (factory_bounding_matrix x y w)).length = timepoints x - 2 := by
    rw [dtw_cost_matrix_length, timepoints_average_of_slope_transform]
  have e2 : ((dtw_cost_matrix (average_of_slope_transform x) (average_of_slope_transform y)
      (factory_bounding_matrix x y w)).headD []).length = timepoints y - 2 := by
    rw [dtw_cost_matrix_head_length _ _ _
        (by rw [timepoints_average_of_slope_transform]; omega),
      timepoints_average_of_slope_transform]
  have hpath : (ddtw_alignment_path_factory x y w average_of_slope_transform x y).1 =
      (backtrack (dtw_cost_matrix (average_of_slope_transform x)
          (average_of_slope_transform y) (factory_bounding_matrix x y w))
        ((timepoints x - 2 - 1) + (timepoints y - 2 - 1))
        (timepoints x - 2 - 1) (timepoints y - 2 - 1)).reverse := by
    show compute_min_return_path _ = _
    unfold compute_min_return_path
    rw [e1, e2]
  obtain ⟨hh, hl, hc⟩ := backtrack_spec
    (dtw_cost_matrix (average_of_slope_transform x) (average_of_slope_transform y)
      (factory_bounding_matrix x y w))
    ((timepoints x - 2 - 1) + (timepoints y - 2 - 1))
    (timepoints x - 2 - 1) (timepoints y - 2 - 1) (le_refl _)
  have e3 : timepoints x - 2 - 1 = timepoints x - 3 := by omega
  have e4 : timepoints y - 2 - 1 = timepoints y - 3 := by omega
  refine ⟨?_, ?_, ?_⟩
  · rw [hpath, List.head?_reverse]
    exact hl
  · rw [hpath, List.getLast?_reverse, hh, e3, e4]
  · rw [hpath, List.chain'_reverse]
    exact hc

/-- Witness for C8 at `x = y = [[1, 2, 3, 4, 5]]` with the default (absent)
window. -/
theorem ddtw_alignment_path_endpoints_witness :
    (isRect [[(1 : ℚ), 2, 3, 4, 5]] ∧ 3 ≤ timepoints [[(1 : ℚ), 2, 3, 4, 5]]) ∧
    ((ddtw_alignment_path_factory [[(1 : ℚ), 2, 3, 4, 5]] [[(1 : ℚ), 2, 3, 4, 5]] none
        average_of_slope_transform [[(1 : ℚ), 2, 3, 4, 5]]
        [[(1 : ℚ), 2, 3, 4, 5]]).1.head? = some (0, 0) ∧
      (ddtw_alignment_path_factory [[(1 : ℚ), 2, 3, 4, 5]] [[(1 : ℚ), 2, 3, 4, 5]] none
        average_of_slope_transform [[(1 : ℚ), 2, 3, 4, 5]]
        [[(1 : ℚ), 2, 3, 4, 5]]).1.getLast? =
          some (timepoints [[(1 : ℚ), 2, 3, 4, 5]] - 3,
            timepoints [[(1 : ℚ), 2, 3, 4, 5]] - 3) ∧
      (ddtw_alignment_path_factory [[(1 : ℚ), 2, 3, 4, 5]] [[(1 : ℚ), 2, 3, 4, 5]] none
        average_of_slope_transform [[(1 : ℚ), 2, 3, 4, 5]]
        [[(1 : ℚ), 2, 3, 4, 5]]).1.Chain' path_step) :=
  ⟨⟨by decide, by decide⟩,
    ddtw_alignment_path_endpoints [[(1 : ℚ), 2, 3, 4, 5]] [[(1 : ℚ), 2, 3, 4, 5]] none
      (by decide) (by decide) (by decide) (by decide)⟩
